/-
Verification of the patch application and verification engine of
android-tools-static: the patch-identity primitive (SBOM_scripts/git/patch_id.py),
the patch-identity verifier (SBOM_scripts/git/submodule_verification.py, with its
call site in SBOM_scripts/high_level/document.py), and the patch driver
(vendor/meson_patch_vendor.py).

The Python code orchestrates external processes (git, patch).  The shallow
embedding models each external invocation by its observable data: the argv
list it is launched with, and a record of its exit code and captured output.
Pure control flow (truncation, comparison loops, the two-phase
cleanup/apply protocol, strategy dispatch) is translated directly from the
source.
-/
import Mathlib

namespace AndroidToolsStatic

/-! ## Patch identity primitive — SBOM_scripts/git/patch_id.py

Process outputs are modelled as lists of characters (`stdout`/`stderr` after
full draining); an external process is a record of its exit code and captured
streams. -/

/-- Result of a fully-drained external process: exit code, stdout, stderr.
Models the data `subprocess.run` / `Popen.communicate` deliver. -/
structure ProcOut where
  rc : Int
  out : List Char
  err : List Char
  deriving Repr, DecidableEq

/-- Embedding of Python `subprocess.CalledProcessError(returncode, cmd, output,
stderr)` as raised by `get_nth_head_commit_patch_id`. -/
structure CalledProcessError where
  returncode : Int
  cmd : List String
  output : Option (List Char)
  stderr : List Char
  deriving Repr, DecidableEq

/-- Argv of the `git diff HEAD~n^!` producer process
(patch_id.py line 55: `[git_exe, "diff", f"HEAD~{n}^!"]`). -/
def gitDiffArgs (git_exe : String) (n : Nat) : List String :=
  [git_exe, "diff", "HEAD~" ++ toString n ++ "^!"]

/-- Argv of the `git patch-id --stable` consumer process
(patch_id.py lines 34 and 63). -/
def gitPatchIdArgs (git_exe : String) : List String :=
  [git_exe, "patch-id", "--stable"]

/-- Embedding of `get_file_patch_id` (patch_id.py lines 23-42): run
`git patch-id --stable` on the patch file; `check=True` raises on non-zero
exit; on success return `exec_proc.stdout[:40]`. -/
def get_file_patch_id (git_exe : String) (exec_proc : ProcOut) :
    Except CalledProcessError (List Char) :=
  if exec_proc.rc ≠ 0 then
    .error ⟨exec_proc.rc, gitPatchIdArgs git_exe, some exec_proc.out, exec_proc.err⟩
  else
    .ok (exec_proc.out.take 40)

/-- Embedding of `get_nth_head_commit_patch_id` (patch_id.py lines 45-92):
pipe `git diff HEAD~n^!` into `git patch-id --stable`; after draining both,
check the diff process exit code first, then the patch-id process exit code,
raising `CalledProcessError` with the failing process's stderr attached; on
success return `git_patch_id_stdout.decode()[:40]`. -/
def get_nth_head_commit_patch_id (git_exe : String) (n : Nat)
    (git_diff_proc git_patch_id_proc : ProcOut) :
    Except CalledProcessError (List Char) :=
  if git_diff_proc.rc ≠ 0 then
    .error ⟨git_diff_proc.rc, gitDiffArgs git_exe n, none, git_diff_proc.err⟩
  else if git_patch_id_proc.rc ≠ 0 then
    .error ⟨git_patch_id_proc.rc, gitPatchIdArgs git_exe,
            some git_patch_id_proc.out, git_patch_id_proc.err⟩
  else
    .ok (git_patch_id_proc.out.take 40)

/-! ## Patch identity verifier — SBOM_scripts/git/submodule_verification.py -/

/-- Embedding of `PatchIDError` (submodule_verification.py lines 25-66): the
exception carries the commit patch id, the file patch id, the repository
directory and the offending patch file. -/
structure PatchIDError where
  commit_patch_id : List Char
  patch_patch_id : List Char
  repo_dir : String
  patch_file : String
  deriving Repr, DecidableEq

/-- Loop body of `verify_checkout_patches` (submodule_verification.py lines
85-92), with the commit-identity and file-identity computations abstracted as
oracles `cid` (depth `n` of `HEAD~n`) and `fid` (patch file path): compare
`get_nth_head_commit_patch_id(repo, git, patch_num)` with
`get_file_patch_id(patch, git)` for each enumerated patch, raising
`PatchIDError` at the first difference. -/
def verifyGo (repo : String) (cid : Nat → List Char) (fid : String → List Char) :
    Nat → List String → Except PatchIDError Unit
  | _, [] => .ok ()
  | patch_num, patch :: rest =>
    if cid patch_num = fid patch then
      verifyGo repo cid fid (patch_num + 1) rest
    else
      .error ⟨cid patch_num, fid patch, repo, patch⟩

/-- Embedding of `verify_checkout_patches` (submodule_verification.py lines
69-92): enumerate the given patch series from 0 and compare identities
pairwise, `HEAD~i` against the i-th element of the series as passed in. -/
def verify_checkout_patches (repo : String) (cid : Nat → List Char)
    (fid : String → List Char) (patch_series : List String) :
    Except PatchIDError Unit :=
  verifyGo repo cid fid 0 patch_series

/-- Embedding of the Verifier as invoked by its call site
(high_level/document.py lines 255-258): the caller passes
`reversed(patch_list)`, so the spec-level `Verify(repo, series)` is
`verify_checkout_patches` applied to the reversed series. -/
def Verify (repo : String) (cid : Nat → List Char) (fid : String → List Char)
    (series : List String) : Except PatchIDError Unit :=
  verify_checkout_patches repo cid fid series.reverse

/-! ## Patch driver — vendor/meson_patch_vendor.py

Two complementary embeddings of the driver are used.

The first is trace-level: each per-patch external invocation is summarised by
an oracle record of its success and captured output, and the loops of the
script are translated directly, so that error propagation, the
`expects_successful_reverts` flag and the diagnostic payloads can be stated
exactly.

The second is tool-parametric: the four per-patch operations (dry-run
check-apply, real apply, dry-run check-revert, real revert) are fields of a
`PatchTool` structure and the cleanup/forward/converge control flow is the
same translation of lines 478-504, so that whole-run state properties
(idempotence) can be stated against a concrete model of the external tool. -/

/-- Outcome of one revert attempt during the cleanup pass (lines 480-501).
`_try_revert_nogit_git` / `_try_revert_patch` first dry-run the reverse apply
and, only if that succeeds, revert for real; a real-revert failure after a
successful dry-run exits fatally inside the helper (lines 125-131, 166-172),
while a dry-run failure raises to the loop. -/
inductive RevertOutcome where
  /-- the reverse dry-run (`apply --check --reverse` / `--dry-run -R`) failed -/
  | dryFail
  /-- dry-run and real revert both succeeded -/
  | reverted
  /-- dry-run succeeded but the real revert failed (fatal inside the helper) -/
  | realFail
  deriving Repr, DecidableEq

/-- Fatal ways the cleanup pass can end. -/
inductive CleanupErr where
  /-- the loop's own fatal branch (lines 484-493): a revert failed after an
  earlier one in this run succeeded; carries the offending patch name -/
  | inconsistent (patch : String)
  /-- a real revert failed after its successful dry-run (helper-internal
  fatal exit); carries the offending patch name -/
  | revertAfterCheck (patch : String)
  deriving Repr, DecidableEq

/-- Cleanup loop of the driver (lines 479-501), iterating over an already
reversed list of (patch, outcome) pairs: `expects_successful_reverts` starts
false; a dry-run revert failure is skipped while it is false and fatal once
it is true; any successful revert sets it. -/
def cleanupPassGo : Bool → List (String × RevertOutcome) → Except CleanupErr Unit
  | _, [] => .ok ()
  | expects_successful_reverts, (patch, o) :: rest =>
    match o with
    | .dryFail =>
      if expects_successful_reverts then .error (.inconsistent patch)
      else cleanupPassGo expects_successful_reverts rest
    | .reverted => cleanupPassGo true rest
    | .realFail => .error (.revertAfterCheck patch)

/-- The cleanup pass as run by the driver: `for patch in reversed(args.patches)`
(line 480) with `expects_successful_reverts = False` (line 479). -/
def cleanupPass (patches : List (String × RevertOutcome)) : Except CleanupErr Unit :=
  cleanupPassGo false patches.reverse

/-- Oracle for one patch of the forward apply pass (`_apply_patch`, lines
244-309, and the structurally identical `_apply_git_norepo_patch`, lines
175-241): success of the forward dry-run check, its captured output, success
of the reverse dry-run check tried after a forward-check failure, and success
and captured output of the real apply run after a successful forward check. -/
structure ApplyOutcome where
  fwdCheckOk : Bool
  fwdCheckOutput : List Char
  revCheckOk : Bool
  realOk : Bool
  realOutput : List Char
  deriving Repr, DecidableEq

/-- External invocations a single `_apply_patch` / `_apply_git_norepo_patch`
call can make, in order. -/
inductive ApplyInvocation where
  | fwdCheck
  | revCheck
  | realApply
  deriving Repr, DecidableEq

/-- Per-patch result of the forward pass. -/
inductive PatchStepRes where
  /-- forward check succeeded and the real apply succeeded -/
  | applied
  /-- forward check failed but the reverse check succeeded (lines 216-222,
  284-290): logged and skipped -/
  | alreadyApplied
  /-- both checks failed: fatal, carrying the captured output of the failed
  forward dry-run (the `exc` bound at lines 197/264 and passed at lines
  211-215/279-283) -/
  | fatalApply (diag : List Char)
  /-- real apply failed after its successful dry-run (lines 235-241,
  303-309), carrying that invocation's captured output -/
  | fatalReal (diag : List Char)
  deriving Repr, DecidableEq

/-- One iteration of the forward pass: the branching of `_apply_patch` /
`_apply_git_norepo_patch`, returning the invocations performed and the
result. -/
def applyPatchStep (o : ApplyOutcome) : List ApplyInvocation × PatchStepRes :=
  if o.fwdCheckOk then
    if o.realOk then ([.fwdCheck, .realApply], .applied)
    else ([.fwdCheck, .realApply], .fatalReal o.realOutput)
  else
    if o.revCheckOk then ([.fwdCheck, .revCheck], .alreadyApplied)
    else ([.fwdCheck, .revCheck], .fatalApply o.fwdCheckOutput)

/-- Fatal error of the forward pass: which patch failed and the diagnostic
attached to the `sys.exit`. -/
structure ApplyErr where
  patch : String
  diag : List Char
  deriving Repr, DecidableEq

/-- Forward apply loop of the driver (lines 502-504): apply each patch of the
series in order, stopping at the first fatal per-patch result; on success
collect the per-patch results. -/
def forwardPass : List (String × ApplyOutcome) →
    Except ApplyErr (List (String × PatchStepRes))
  | [] => .ok []
  | (patch, o) :: rest =>
    match (applyPatchStep o).2 with
    | .applied => (forwardPass rest).map (fun l => (patch, .applied) :: l)
    | .alreadyApplied => (forwardPass rest).map (fun l => (patch, .alreadyApplied) :: l)
    | .fatalApply d => .error ⟨patch, d⟩
    | .fatalReal d => .error ⟨patch, d⟩

/-! ### Strategy A — `git am` (lines 352-424) -/

/-- Argv of `git -C <submodule> reset --hard` (lines 73). -/
def resetCmd (git submodule_rel_path : String) : List String :=
  [git, "-C", submodule_rel_path, "reset", "--hard"]

/-- Argv of `git -C <submodule> clean --force -d -x` (lines 74-84). -/
def cleanCmd (git submodule_rel_path : String) : List String :=
  [git, "-C", submodule_rel_path, "clean", "--force", "-d", "-x"]

/-- Argv of the single `git am` invocation (lines 367-383): configuration
overrides, `-C <submodule> am`, then the whole patch series appended. -/
def amCmd (git submodule_rel_path : String) (patches : List String) : List String :=
  [git, "-c", "safe.directory=*",
   "-c", "user.name=android-tools-static\x27s build system",
   "-c", "user.email=email@invalid.invalid",
   "-C", submodule_rel_path, "am"] ++ patches

/-- Abstract state of the vendored working tree for the strategy-A embedding:
`git reset --hard` plus `git clean --force -d -x` restore the pristine state,
and a successful `git am` leaves the full series applied as commits. -/
inductive TreeState where
  /-- arbitrary initial state -/
  | unknown (tag : Nat)
  /-- pristine, unpatched checkout -/
  | pristine
  /-- pristine plus the given patches landed as commits, in order -/
  | patched (patches : List String)
  deriving Repr, DecidableEq

/-- Embedding of `_reset_git_submodule` (lines 65-89): the reset and clean
commands either both succeed, restoring the pristine tree, or their failure
exits the process with status 1 (`_failed_git_invocation`, lines 29-31). -/
def reset_git_submodule (resetOk : Bool) (_t : TreeState) : Except Nat TreeState :=
  if resetOk then .ok .pristine else .error 1

/-- Embedding of the single mailbox-apply step (lines 366-424): `git am` with
the whole series either lands every patch as a commit or fails, in which case
the driver exits with status 1 after printing diagnostics. -/
def gitAmStep (amOk : Bool) (patches : List String) (_t : TreeState) :
    Except Nat TreeState :=
  if amOk then .ok (.patched patches) else .error 1

/-- Strategy A (lines 352-424): reset the submodule to pristine, then run the
single `git am` over the whole series. -/
def strategyA (resetOk amOk : Bool) (patches : List String) (t : TreeState) :
    Except Nat TreeState :=
  (reset_git_submodule resetOk t).bind (gitAmStep amOk patches)

/-- The external commands strategy A issues, in order (reset, clean, one
mailbox apply). -/
def strategyACmds (git submodule_rel_path : String) (patches : List String) :
    List (List String) :=
  [resetCmd git submodule_rel_path, cleanCmd git submodule_rel_path,
   amCmd git submodule_rel_path patches]

/-! ### Driver entry gate (lines 341-346) -/

/-- The diagnostic `sys.exit` message of the tool-availability gate
(lines 341-346). -/
def toolUnavailableMsg : String :=
  "At least one patch executable must be specified! This is " ++
  "likely a bug in the Meson build system, which should handle " ++
  "this edge case itself."

/-- Outcome of the driver's main entry, at the granularity C8 needs. -/
inductive DriverOutcome where
  /-- `sys.exit` with the given status and diagnostic -/
  | exited (status : Nat) (msg : String)
  /-- the gate passed and the rest of the driver ran -/
  | ran (commands : List (List String)) (result : Except Nat TreeState)
  deriving Repr

/-- Embedding of the driver's main entry around the tool-availability check
(lines 341-346): if both executable paths are the empty string, exit with a
diagnostic (Python `sys.exit(str)` prints the message and exits with status
1) before issuing any external command or touching the tree; otherwise
proceed with the rest of the run, abstracted as `rest`. -/
def driverMain (git_executable patch_executable : String)
    (rest : List (List String) × Except Nat TreeState) :
    List (List String) × DriverOutcome :=
  if git_executable = "" ∧ patch_executable = "" then
    ([], .exited 1 toolUnavailableMsg)
  else
    (rest.1, .ran rest.1 rest.2)

/-! ### Tool-parametric two-phase converge (lines 478-504) -/

/-- The four per-patch operations the strategies B and C bind (`revert_func`
is check-revert followed by real revert, `apply_func` is check-apply followed
by real apply or the already-applied probe); real runs after a successful
check are assumed to succeed here — their failure is the separate fatal
anomaly handled by the trace-level embedding. -/
structure PatchTool (T P : Type) where
  checkApply : T → P → Bool
  runApply : T → P → T
  checkRevert : T → P → Bool
  runRevert : T → P → T

/-- Cleanup pass over state (lines 479-501), iterating a list already given
in iteration order (the reversed series): revert each patch whose reverse
dry-run passes, tolerate dry-run failures only while no revert has succeeded
yet (`expects_successful_reverts`), `none` on the fatal branch. -/
def cleanupRun {T P : Type} (tool : PatchTool T P) :
    List P → Bool → T → Option T
  | [], _, t => some t
  | p :: ps, expects_successful_reverts, t =>
    if tool.checkRevert t p then
      cleanupRun tool ps true (tool.runRevert t p)
    else if expects_successful_reverts then
      none
    else
      cleanupRun tool ps expects_successful_reverts t

/-- Forward pass over state (lines 502-504 with `_apply_patch` /
`_apply_git_norepo_patch` branching): check-apply then apply, else
check-revert to detect "already applied" and skip, else fatal (`none`). -/
def forwardRun {T P : Type} (tool : PatchTool T P) : List P → T → Option T
  | [], t => some t
  | p :: ps, t =>
    if tool.checkApply t p then forwardRun tool ps (tool.runApply t p)
    else if tool.checkRevert t p then forwardRun tool ps t
    else none

/-- The driver's two-phase protocol for strategies B and C: cleanup over the
reversed series starting with `expects_successful_reverts = False`, then the
forward apply pass over the series. -/
def converge {T P : Type} (tool : PatchTool T P) (series : List P) (t : T) :
    Option T :=
  (cleanupRun tool series.reverse false t).bind (forwardRun tool series)

/-- Modelled from the spec: the external patch tool's semantics on a working
tree, which the repository does not contain (`git apply` / `patch` are
external programs).  The tree is the stack of currently applied patches over
the pristine checkout; a patch's reverse dry-run succeeds exactly when it is
the most recently applied patch, reverting pops it, applying pushes it, and
the forward dry-run of a patch that is already on top fails (its hunks are
already present) while any other patch applies cleanly after cleanup. -/
def stackTool : PatchTool (List Nat) Nat where
  checkApply t p := !(decide (t.head? = some p))
  runApply t p := p :: t
  checkRevert t p := decide (t.head? = some p)
  runRevert t _ := t.tail

/-! ## Patch content identity — spec-level model

`git patch-id --stable` itself is an external program.  For the
content-invariance claim it is modelled from the spec: a patch file is
commit metadata plus diff hunks, and the identity algorithm is a function of
the hunk content only (spec sections 3 and 4.1: "derived purely from a
patch's content (the set of hunks/diff lines), insensitive to commit
metadata (author, date, message)"). -/

/-- A patch file as the identity algorithm sees it: mail-style metadata
(author, date, subject/message headers) and the diff hunks. -/
structure PatchFileContent where
  author : List Char
  date : List Char
  subject : List Char
  headers : List Char
  hunks : List (List Char)
  deriving Repr, DecidableEq

/-- Modelled from the spec: `git patch-id --stable`, a stable diff-aware
content-addressing algorithm — a function (`hash`, arbitrary) of the patch's
hunk content only, ignoring all metadata. -/
def gitPatchIdStable (hash : List (List Char) → List Char)
    (pf : PatchFileContent) : List Char :=
  hash pf.hunks

/-- `get_file_patch_id` at the patch-content level: the spec-modelled
external identity algorithm composed with the source's 40-character
truncation (patch_id.py line 42). -/
def filePatchIdOfContent (hash : List (List Char) → List Char)
    (pf : PatchFileContent) : List Char :=
  (gitPatchIdStable hash pf).take 40

/-! ## Theorems -/

/-- C7: `get_nth_head_commit_patch_id` checks both drained processes' exit
codes — the diff producer first, then the identity consumer — raises a
`CalledProcessError` carrying the failing process's captured stderr if either
exited non-zero, and returns an identity exactly when both exited with
status zero. -/
theorem get_nth_head_commit_patch_id_checks_both_exit_codes
    (git_exe : String) (n : Nat) (d p : ProcOut) :
    ((get_nth_head_commit_patch_id git_exe n d p).isOk = true ↔ (d.rc = 0 ∧ p.rc = 0))
    ∧ (d.rc ≠ 0 → get_nth_head_commit_patch_id git_exe n d p =
        .error ⟨d.rc, gitDiffArgs git_exe n, none, d.err⟩)
    ∧ (d.rc = 0 → p.rc ≠ 0 → get_nth_head_commit_patch_id git_exe n d p =
        .error ⟨p.rc, gitPatchIdArgs git_exe, some p.out, p.err⟩)
    ∧ (d.rc = 0 → p.rc = 0 → get_nth_head_commit_patch_id git_exe n d p =
        .ok (p.out.take 40)) := by
  unfold get_nth_head_commit_patch_id
  by_cases hd : d.rc = 0 <;> by_cases hp : p.rc = 0 <;>
    simp [hd, hp, Except.isOk, Except.toBool]

/-- C7 witness: with the diff process failing (exit 2, stderr "e") and the
identity process succeeding, an error carrying the diff process's stderr is
raised. -/
theorem get_nth_head_commit_patch_id_checks_both_exit_codes_witness :
    get_nth_head_commit_patch_id "git" 3 ⟨2, [], ['e']⟩ ⟨0, ['a'], []⟩ =
      .error ⟨2, gitDiffArgs "git" 3, none, ['e']⟩ :=
  (get_nth_head_commit_patch_id_checks_both_exit_codes "git" 3
    ⟨2, [], ['e']⟩ ⟨0, ['a'], []⟩).2.1 (by decide)

/-- C10: on success both identity functions return the first 40 characters of
the identity tool's standard output via the identical truncation, so results
are bounded by length 40, have length exactly 40 whenever the tool's output
is at least that long, and drop everything past the 40-character patch-id
field (in particular the trailing commit-hash field). -/
theorem patch_id_forty_char_truncation (git_exe : String) (n : Nat)
    (f d p : ProcOut) :
    (f.rc = 0 → get_file_patch_id git_exe f = .ok (f.out.take 40))
    ∧ (d.rc = 0 → p.rc = 0 → get_nth_head_commit_patch_id git_exe n d p =
        .ok (p.out.take 40))
    ∧ (f.out.take 40).length ≤ 40
    ∧ (40 ≤ f.out.length → (f.out.take 40).length = 40)
    ∧ (∀ idc rest : List Char, idc.length = 40 →
        (idc ++ rest).take 40 = idc) := by
  refine ⟨fun hf => ?_, fun hd hp => ?_, ?_, fun hlen => ?_, fun idc rest hidc => ?_⟩
  · simp [get_file_patch_id, hf]
  · simp [get_nth_head_commit_patch_id, hd, hp]
  · simp [List.length_take]
  · simp [List.length_take]; omega
  · exact List.take_left' hidc

/-- C10 witness: a 45-character tool output line (40-character id, space,
4-character commit field) is truncated to its 40-character id by both
functions. -/
theorem patch_id_forty_char_truncation_witness :
    get_file_patch_id "git"
        ⟨0, (List.replicate 40 'a') ++ [' ', 'b', 'c', 'd'], []⟩ =
      .ok (List.replicate 40 'a') := by
  have h := (patch_id_forty_char_truncation "git" 0
    ⟨0, (List.replicate 40 'a') ++ [' ', 'b', 'c', 'd'], []⟩
    ⟨0, [], []⟩ ⟨0, [], []⟩)
  have h1 := h.1 (by decide)
  have h2 := h.2.2.2.2 (List.replicate 40 'a') [' ', 'b', 'c', 'd'] (by decide)
  rw [h1, h2]

/-- C8: when both external tool paths are empty the driver exits with status
1 and the tool-unavailability diagnostic, having issued no external command
(and hence performed no mutation of the working tree), whatever the rest of
the run would have been. -/
theorem driver_refuses_without_tools
    (rest : List (List String) × Except Nat TreeState) :
    driverMain "" "" rest = ([], .exited 1 toolUnavailableMsg)
    ∧ toolUnavailableMsg ≠ "" := by
  constructor
  · simp [driverMain]
  · simp [toolUnavailableMsg]

/-- C4: under strategy A with a successful reset, the driver first restores
the tree to pristine (reset plus clean, in that order, before the mailbox
apply), then issues one single `git am` invocation carrying the entire
ordered series, whose outcome is all patches landed as commits or an abort
with exit status 1. -/
theorem strategyA_reset_then_single_mailbox_apply (git path : String)
    (patches : List String) (resetOk amOk : Bool) (t : TreeState)
    (h : resetOk = true) :
    reset_git_submodule resetOk t = .ok TreeState.pristine
    ∧ strategyA resetOk amOk patches t = gitAmStep amOk patches TreeState.pristine
    ∧ (amOk = true → strategyA resetOk amOk patches t =
        .ok (TreeState.patched patches))
    ∧ (amOk = false → strategyA resetOk amOk patches t = .error 1)
    ∧ strategyACmds git path patches =
        [resetCmd git path, cleanCmd git path, amCmd git path patches]
    ∧ amCmd git path patches =
        [git, "-c", "safe.directory=*",
         "-c", "user.name=android-tools-static\x27s build system",
         "-c", "user.email=email@invalid.invalid",
         "-C", path, "am"] ++ patches := by
  subst h
  refine ⟨rfl, ?_, fun ha => ?_, fun ha => ?_, rfl, rfl⟩
  · simp [strategyA, reset_git_submodule, Except.bind]
  · subst ha; simp [strategyA, reset_git_submodule, gitAmStep, Except.bind]
  · subst ha; simp [strategyA, reset_git_submodule, gitAmStep, Except.bind]

/-- C4 witness: with reset and mailbox apply both succeeding on a two-patch
series, strategy A ends with both patches landed as commits. -/
theorem strategyA_reset_then_single_mailbox_apply_witness :
    strategyA true true ["a.patch", "b.patch"] (TreeState.unknown 7) =
      .ok (TreeState.patched ["a.patch", "b.patch"]) :=
  (strategyA_reset_then_single_mailbox_apply "git" "vendor/x"
    ["a.patch", "b.patch"] true true (TreeState.unknown 7) rfl).2.2.1 rfl

/-- C9: the patch-content identity is invariant under commit metadata — two
patch files with identical diff hunks but different author, date, subject or
other header lines receive equal identities (the spec-modelled
`git patch-id --stable` algorithm reads only the hunks, and the source's
40-character truncation preserves equality). -/
theorem filePatchId_content_invariance (hash : List (List Char) → List Char)
    (a b : PatchFileContent) (h : a.hunks = b.hunks) :
    filePatchIdOfContent hash a = filePatchIdOfContent hash b := by
  simp [filePatchIdOfContent, gitPatchIdStable, h]

/-- C9 witness: two patches with the same single hunk but different author,
date, subject and headers have equal identities. -/
theorem filePatchId_content_invariance_witness :
    filePatchIdOfContent (fun l => l.flatten)
        ⟨['A'], ['1'], ['s'], ['h'], [['+', 'x']]⟩ =
      filePatchIdOfContent (fun l => l.flatten)
        ⟨['B'], ['2'], ['t'], ['i'], [['+', 'x']]⟩ :=
  filePatchId_content_invariance (fun l => l.flatten)
    ⟨['A'], ['1'], ['s'], ['h'], [['+', 'x']]⟩
    ⟨['B'], ['2'], ['t'], ['i'], [['+', 'x']]⟩ rfl

/-- Helper: the verification loop succeeds when every enumerated pair of
identities matches, for any starting depth. -/
theorem verifyGo_ok_of_matches (repo : String) (cid : Nat → List Char)
    (fid : String → List Char) :
    ∀ (L : List String) (n : Nat),
      (∀ i (h : i < L.length), cid (n + i) = fid (L.get ⟨i, h⟩)) →
      verifyGo repo cid fid n L = .ok ()
  | [], _, _ => rfl
  | p :: L, n, h => by
    have h0 : cid n = fid p := by simpa using h 0 (by simp)
    unfold verifyGo
    rw [if_pos h0]
    refine verifyGo_ok_of_matches repo cid fid L (n + 1) fun i hi => ?_
    have heq : n + 1 + i = n + (i + 1) := by omega
    rw [heq]
    simpa using h (i + 1) (by simpa using hi)

/-- C1: the Verifier as invoked (the series is reversed at its call site)
aligns history with the series in reverse-chronological order: whenever
`HEAD~i`'s commit identity equals the identity of `series[len - 1 - i]` for
every depth i, verification succeeds — in particular the literal scenario of
commits `[c_b, c_a]` (newest first) against `["a.patch", "b.patch"]`. -/
theorem Verify_reverse_chronological_alignment (repo : String)
    (cid : Nat → List Char) (fid : String → List Char) (S : List String)
    (h : ∀ i (hi : i < S.length),
      cid i = fid (S.get ⟨S.length - 1 - i, by omega⟩)) :
    Verify repo cid fid S = .ok () := by
  unfold Verify verify_checkout_patches
  refine verifyGo_ok_of_matches repo cid fid S.reverse 0 fun i hi => ?_
  have hi' : i < S.length := by simpa using hi
  rw [Nat.zero_add, List.get_reverse' S ⟨i, hi⟩ (by simp at hi ⊢; omega)]
  exact h i hi'

/-- C1 witness: the scenario of the spec — the repository's two most recent
commits have the identities of b.patch then a.patch, and verifying the
series ["a.patch", "b.patch"] succeeds. -/
theorem Verify_reverse_chronological_alignment_witness :
    Verify "vendor/x"
      (fun n => if n = 0 then ['b'] else ['a'])
      (fun p => if p = "a.patch" then ['a'] else ['b'])
      ["a.patch", "b.patch"] = .ok () :=
  Verify_reverse_chronological_alignment "vendor/x"
    (fun n => if n = 0 then ['b'] else ['a'])
    (fun p => if p = "a.patch" then ['a'] else ['b'])
    ["a.patch", "b.patch"]
    (by
      intro i hi
      simp only [List.length_cons, List.length_nil] at hi
      interval_cases i <;> rfl)

/-- Helper: the verification loop stops with the mismatching pair's error as
soon as the identities at position j differ, all earlier positions having
matched. -/
theorem verifyGo_error_at_first_mismatch (repo : String) (cid : Nat → List Char)
    (fid : String → List Char) :
    ∀ (L : List String) (n j : Nat) (hj : j < L.length),
      (∀ i (h : i < j), cid (n + i) = fid (L.get ⟨i, by omega⟩)) →
      cid (n + j) ≠ fid (L.get ⟨j, hj⟩) →
      verifyGo repo cid fid n L =
        .error ⟨cid (n + j), fid (L.get ⟨j, hj⟩), repo, L.get ⟨j, hj⟩⟩
  | [], _, j, hj, _, _ => by simp at hj
  | p :: L, n, 0, _, _, hmis => by
    have h0 : ¬ cid n = fid p := by simpa using hmis
    unfold verifyGo
    rw [if_neg h0]
    simp
  | p :: L, n, j + 1, hj, hpre, hmis => by
    have h0 : cid n = fid p := by simpa using hpre 0 (Nat.succ_pos j)
    unfold verifyGo
    rw [if_pos h0]
    have hj' : j < L.length := by simpa using hj
    have := verifyGo_error_at_first_mismatch repo cid fid L (n + 1) j hj'
      (fun i hi => by
        have heq : n + 1 + i = n + (i + 1) := by omega
        rw [heq]
        simpa using hpre (i + 1) (by omega))
      (by
        have : n + 1 + j = n + (j + 1) := by omega
        rw [this]
        simpa using hmis)
    rw [this]
    have : n + 1 + j = n + (j + 1) := by omega
    simp [this]

/-- C6: at the first position j where commit identity and file identity
differ, `verify_checkout_patches` fails with a `PatchIDError` naming the
repository, the offending patch file and both identity values; the result is
the same for any identity oracles that agree up to position j, so no
subsequent patch of the series influences the outcome and no partial-success
value is produced. -/
theorem verify_checkout_patches_first_mismatch_fatal (repo : String)
    (cid cid2 : Nat → List Char) (fid fid2 : String → List Char)
    (S : List String) (j : Nat) (hj : j < S.length)
    (hpre : ∀ i (h : i < j), cid i = fid (S.get ⟨i, by omega⟩))
    (hmis : cid j ≠ fid (S.get ⟨j, hj⟩))
    (hcagree : ∀ i, i ≤ j → cid2 i = cid i)
    (hfagree : ∀ i (h : i ≤ j), fid2 (S.get ⟨i, by omega⟩) = fid (S.get ⟨i, by omega⟩)) :
    verify_checkout_patches repo cid fid S =
      .error ⟨cid j, fid (S.get ⟨j, hj⟩), repo, S.get ⟨j, hj⟩⟩
    ∧ verify_checkout_patches repo cid2 fid2 S =
      .error ⟨cid j, fid (S.get ⟨j, hj⟩), repo, S.get ⟨j, hj⟩⟩ := by
  constructor
  · have := verifyGo_error_at_first_mismatch repo cid fid S 0 j hj
      (fun i hi => by simpa using hpre i hi)
      (by simpa using hmis)
    unfold verify_checkout_patches
    simpa using this
  · have h2pre : ∀ i (h : i < j), cid2 i = fid2 (S.get ⟨i, by omega⟩) := by
      intro i hi
      rw [hcagree i (Nat.le_of_lt hi), hfagree i (Nat.le_of_lt hi)]
      exact hpre i hi
    have h2mis : cid2 j ≠ fid2 (S.get ⟨j, hj⟩) := by
      rw [hcagree j (Nat.le_refl j), hfagree j (Nat.le_refl j)]
      exact hmis
    have := verifyGo_error_at_first_mismatch repo cid2 fid2 S 0 j hj
      (fun i hi => by simpa using h2pre i hi)
      (by simpa using h2mis)
    simp only [Nat.zero_add] at this
    unfold verify_checkout_patches
    rw [this, hcagree j (Nat.le_refl j), hfagree j (Nat.le_refl j)]

/-- C6 witness: with a mismatch at the first position of a two-patch series,
verification fails naming the repository, the first patch and both
identities, and the identity of the second patch is irrelevant (two oracle
pairs differing beyond the mismatch give the same error). -/
theorem verify_checkout_patches_first_mismatch_fatal_witness :
    verify_checkout_patches "vendor/x"
      (fun _ => ['c']) (fun _ => ['d']) ["a.patch", "b.patch"] =
      .error ⟨['c'], ['d'], "vendor/x", "a.patch"⟩ :=
  (verify_checkout_patches_first_mismatch_fatal "vendor/x"
    (fun _ => ['c']) (fun _ => ['c'])
    (fun _ => ['d']) (fun _ => ['d'])
    ["a.patch", "b.patch"] 0 (by decide)
    (fun i hi => absurd hi (Nat.not_lt_zero i))
    (by decide)
    (fun i hi => rfl)
    (fun i hi => rfl)).1
/-- Helper: one cleanup-loop step over a dry-run failure with the flag still
clear skips the patch. -/
theorem cleanupPassGo_dryFail_skip (patch : String)
    (rest : List (String × RevertOutcome)) :
    cleanupPassGo false ((patch, RevertOutcome.dryFail) :: rest) =
      cleanupPassGo false rest := by
  simp [cleanupPassGo]

/-- Helper: one cleanup-loop step over a dry-run failure with the flag set is
the fatal inconsistent-revert-state exit. -/
theorem cleanupPassGo_dryFail_fatal (patch : String)
    (rest : List (String × RevertOutcome)) :
    cleanupPassGo true ((patch, RevertOutcome.dryFail) :: rest) =
      .error (.inconsistent patch) := by
  simp [cleanupPassGo]

/-- Helper: one cleanup-loop step over a successful revert sets the flag. -/
theorem cleanupPassGo_reverted_step (flag : Bool) (patch : String)
    (rest : List (String × RevertOutcome)) :
    cleanupPassGo flag ((patch, RevertOutcome.reverted) :: rest) =
      cleanupPassGo true rest := by
  simp [cleanupPassGo]

/-- Helper: `expects_successful_reverts` after an error-free stretch of the
cleanup loop is the starting flag or-ed with whether any revert in that
stretch succeeded, and processing resumes on the remainder with that flag. -/
theorem cleanupPassGo_append (tail pre : List (String × RevertOutcome)) :
    ∀ flag : Bool, cleanupPassGo flag pre = .ok () →
      cleanupPassGo flag (pre ++ tail) =
        cleanupPassGo
          (flag || pre.any (fun x => decide (x.2 = RevertOutcome.reverted)))
          tail := by
  induction pre with
  | nil => intro flag _; simp
  | cons x pre ih =>
    obtain ⟨patch, o⟩ := x
    intro flag h
    rw [List.cons_append]
    cases o with
    | dryFail =>
      cases flag with
      | true => rw [cleanupPassGo_dryFail_fatal] at h; exact absurd h (by simp)
      | false =>
        rw [cleanupPassGo_dryFail_skip] at h
        rw [cleanupPassGo_dryFail_skip, ih false h]
        simp
    | reverted =>
      rw [cleanupPassGo_reverted_step] at h
      rw [cleanupPassGo_reverted_step, ih true h]
      simp
    | realFail =>
      have : cleanupPassGo flag ((patch, RevertOutcome.realFail) :: pre) =
          .error (.revertAfterCheck patch) := by simp [cleanupPassGo]
      rw [this] at h
      exact absurd h (by simp)

/-- C2: in the reverse-order cleanup pass, when the loop reaches a patch
whose revert dry-run fails (iteration prefix `pre` processed without a fatal
error), the failure is non-fatal and iteration continues on the remaining
patches if no revert in `pre` succeeded, and is fatal with a diagnostic
naming the patch as soon as any revert in `pre` succeeded — for every series
and every split point. -/
theorem cleanup_first_failure_boundary (S pre rest : List (String × RevertOutcome))
    (patch : String)
    (hsplit : S.reverse = pre ++ (patch, RevertOutcome.dryFail) :: rest)
    (hpre : cleanupPassGo false pre = .ok ()) :
    cleanupPass S =
      if pre.any (fun x => decide (x.2 = RevertOutcome.reverted)) then
        .error (.inconsistent patch)
      else
        cleanupPassGo false rest := by
  unfold cleanupPass
  rw [hsplit, cleanupPassGo_append _ pre false hpre]
  simp only [Bool.false_or]
  by_cases hany : pre.any (fun x => decide (x.2 = RevertOutcome.reverted)) = true
  · rw [hany, if_pos rfl, cleanupPassGo_dryFail_fatal]
  · simp only [Bool.not_eq_true] at hany
    rw [hany, if_neg (by simp), cleanupPassGo_dryFail_skip]

/-- C2 witness: series [("b", dry-run failure), ("c", successful revert)] —
iterated in reverse, the revert of "c" succeeds first, so the subsequent
dry-run failure of "b" is fatal, naming "b". -/
theorem cleanup_first_failure_boundary_witness :
    cleanupPass [("b", RevertOutcome.dryFail), ("c", RevertOutcome.reverted)] =
      if [(("c" : String), RevertOutcome.reverted)].any
          (fun x => decide (x.2 = RevertOutcome.reverted)) then
        .error (.inconsistent "b")
      else
        cleanupPassGo false [] :=
  cleanup_first_failure_boundary
    [("b", RevertOutcome.dryFail), ("c", RevertOutcome.reverted)]
    [("c", RevertOutcome.reverted)] [] "b" rfl rfl

/-- Per-patch results of an error-free stretch of the forward pass. -/
def stepResults (l : List (String × ApplyOutcome)) : List (String × PatchStepRes) :=
  l.map (fun x => (x.1, (applyPatchStep x.2).2))

/-- Helper: a forward-pass step whose per-patch result is Applied prepends it
and continues. -/
theorem forwardPass_cons_applied (patch : String) (o : ApplyOutcome)
    (rest : List (String × ApplyOutcome))
    (hc : (applyPatchStep o).2 = .applied) :
    forwardPass ((patch, o) :: rest) =
      (forwardPass rest).map (fun l => (patch, PatchStepRes.applied) :: l) := by
  simp [forwardPass, hc]

/-- Helper: a forward-pass step whose per-patch result is AlreadyApplied
prepends it and continues. -/
theorem forwardPass_cons_alreadyApplied (patch : String) (o : ApplyOutcome)
    (rest : List (String × ApplyOutcome))
    (hc : (applyPatchStep o).2 = .alreadyApplied) :
    forwardPass ((patch, o) :: rest) =
      (forwardPass rest).map (fun l => (patch, PatchStepRes.alreadyApplied) :: l) := by
  simp [forwardPass, hc]

/-- Helper: a forward-pass step whose per-patch result is a fatal apply
failure aborts the pass with that patch and diagnostic. -/
theorem forwardPass_cons_fatalApply (patch : String) (o : ApplyOutcome)
    (rest : List (String × ApplyOutcome)) (d : List Char)
    (hc : (applyPatchStep o).2 = .fatalApply d) :
    forwardPass ((patch, o) :: rest) = .error ⟨patch, d⟩ := by
  simp [forwardPass, hc]

/-- Helper: a stretch of the forward pass whose per-patch results are all
non-fatal contributes its results and lets processing continue on the
remainder. -/
theorem forwardPass_append (tail pre : List (String × ApplyOutcome))
    (hpre : ∀ x ∈ pre, (applyPatchStep x.2).2 = .applied ∨
      (applyPatchStep x.2).2 = .alreadyApplied) :
    forwardPass (pre ++ tail) =
      (forwardPass tail).map (fun l => stepResults pre ++ l) := by
  induction pre with
  | nil =>
    cases h : forwardPass tail <;> simp [Except.map, stepResults, h]
  | cons x pre ih =>
    obtain ⟨patch, o⟩ := x
    have hcons : (applyPatchStep o).2 = .applied ∨
        (applyPatchStep o).2 = .alreadyApplied := by
      simpa using hpre (patch, o) (List.mem_cons_self _ _)
    have hrest : ∀ x ∈ pre, (applyPatchStep x.2).2 = .applied ∨
        (applyPatchStep x.2).2 = .alreadyApplied :=
      fun x hx => hpre x (List.mem_cons_of_mem _ hx)
    rw [List.cons_append]
    rcases hcons with hc | hc
    · rw [forwardPass_cons_applied patch o _ hc, ih hrest]
      cases h : forwardPass tail <;> simp [Except.map, stepResults, h, hc]
    · rw [forwardPass_cons_alreadyApplied patch o _ hc, ih hrest]
      cases h : forwardPass tail <;> simp [Except.map, stepResults, h, hc]

/-- C3: in the forward apply pass, for every patch reached after an
error-free prefix: a successful dry-run check is followed by the real apply
invocation (succeeding as Applied); a failed dry-run check is followed by
the reverse dry-run check, after which the patch is reported AlreadyApplied
and the pass continues when the reverse check succeeds, while the pass
aborts fatally carrying the captured output of the failed forward dry-run
when the reverse check also fails. -/
theorem forward_apply_protocol (patch : String) (o : ApplyOutcome)
    (pre rest : List (String × ApplyOutcome))
    (hpre : ∀ x ∈ pre, (applyPatchStep x.2).2 = .applied ∨
      (applyPatchStep x.2).2 = .alreadyApplied) :
    (o.fwdCheckOk = true →
      (applyPatchStep o).1 = [.fwdCheck, .realApply]
      ∧ (o.realOk = true →
          forwardPass (pre ++ (patch, o) :: rest) =
            (forwardPass rest).map
              (fun l => stepResults pre ++ (patch, .applied) :: l)))
    ∧ (o.fwdCheckOk = false →
        (applyPatchStep o).1 = [.fwdCheck, .revCheck]
        ∧ (o.revCheckOk = true →
            (applyPatchStep o).2 = .alreadyApplied
            ∧ forwardPass (pre ++ (patch, o) :: rest) =
              (forwardPass rest).map
                (fun l => stepResults pre ++ (patch, .alreadyApplied) :: l))
        ∧ (o.revCheckOk = false →
            forwardPass (pre ++ (patch, o) :: rest) =
              .error ⟨patch, o.fwdCheckOutput⟩)) := by
  have happ := forwardPass_append ((patch, o) :: rest) pre hpre
  constructor
  · intro hfwd
    refine ⟨by cases hr : o.realOk <;> simp [applyPatchStep, hfwd, hr],
      fun hreal => ?_⟩
    have hstep : (applyPatchStep o).2 = .applied := by
      simp [applyPatchStep, hfwd, hreal]
    rw [happ, forwardPass_cons_applied patch o rest hstep]
    cases h : forwardPass rest <;> simp [Except.map, h]
  · intro hfwd
    refine ⟨by cases hr : o.revCheckOk <;> simp [applyPatchStep, hfwd, hr],
      fun hrev => ?_, fun hrev => ?_⟩
    · have hstep : (applyPatchStep o).2 = .alreadyApplied := by
        simp [applyPatchStep, hfwd, hrev]
      refine ⟨hstep, ?_⟩
      rw [happ, forwardPass_cons_alreadyApplied patch o rest hstep]
      cases h : forwardPass rest <;> simp [Except.map, h]
    · have hstep : (applyPatchStep o).2 = .fatalApply o.fwdCheckOutput := by
        simp [applyPatchStep, hfwd, hrev]
      rw [happ, forwardPass_cons_fatalApply patch o rest _ hstep]
      simp [Except.map]

/-- C3 witness: after an error-free prefix (["p", applied]), a patch "q"
whose forward and reverse dry-runs both fail aborts the pass carrying the
forward dry-run's captured output, regardless of the patches behind it. -/
theorem forward_apply_protocol_witness :
    forwardPass
      [("p", ⟨true, [], false, true, []⟩),
       ("q", ⟨false, ['o'], false, true, []⟩),
       ("r", ⟨true, [], false, true, []⟩)] =
      .error ⟨"q", ['o']⟩ :=
  ((forward_apply_protocol "q" ⟨false, ['o'], false, true, []⟩
      [("p", ⟨true, [], false, true, []⟩)]
      [("r", ⟨true, [], false, true, []⟩)]
      (by intro x hx; simp at hx; subst hx; left; rfl)).2
    rfl).2.2 rfl

/-- Helper: unfolding of one cleanup-over-state step. -/
theorem cleanupRun_cons {T P : Type} (tool : PatchTool T P) (p : P) (ps : List P)
    (flag : Bool) (t : T) :
    cleanupRun tool (p :: ps) flag t =
      if tool.checkRevert t p then cleanupRun tool ps true (tool.runRevert t p)
      else if flag then none
      else cleanupRun tool ps flag t := rfl

/-- Helper: unfolding of one forward-over-state step. -/
theorem forwardRun_cons {T P : Type} (tool : PatchTool T P) (p : P) (ps : List P)
    (t : T) :
    forwardRun tool (p :: ps) t =
      if tool.checkApply t p then forwardRun tool ps (tool.runApply t p)
      else if tool.checkRevert t p then forwardRun tool ps t
      else none := rfl

/-- Helper: in the stack model, the cleanup pass only pops, so a tree with no
two adjacent equal patches stays that way. -/
theorem cleanupRun_stack_chain :
    ∀ (L : List Nat) (flag : Bool) (t t2 : List Nat),
      t.Chain' (· ≠ ·) → cleanupRun stackTool L flag t = some t2 →
      t2.Chain' (· ≠ ·)
  | [], _, t, t2, ht, h => by
    simp only [cleanupRun] at h
    obtain rfl : t = t2 := by simpa using h
    exact ht
  | p :: ps, flag, t, t2, ht, h => by
    rw [cleanupRun_cons] at h
    by_cases hr : stackTool.checkRevert t p = true
    · rw [if_pos hr] at h
      exact cleanupRun_stack_chain ps true _ t2 (List.Chain'.tail ht) h
    · rw [if_neg hr] at h
      cases flag with
      | true => simp at h
      | false => exact cleanupRun_stack_chain ps false t t2 ht h

/-- Helper: in the stack model, after the cleanup pass has processed its last
patch q, q is not on top of the resulting tree (it was either just popped —
exposing a different patch, by the adjacent-distinctness invariant — or its
reverse dry-run failed because it was not on top). -/
theorem cleanupRun_stack_last :
    ∀ (L : List Nat) (flag : Bool) (t t2 : List Nat) (q : Nat),
      t.Chain' (· ≠ ·) → cleanupRun stackTool L flag t = some t2 →
      L.getLast? = some q → t2.head? ≠ some q
  | [], _, _, _, _, _, _, hlast => by simp at hlast
  | [p], flag, t, t2, q, ht, h, hlast => by
    have hq : q = p := by simpa using hlast.symm
    subst hq
    rw [cleanupRun_cons] at h
    by_cases hr : stackTool.checkRevert t q = true
    · rw [if_pos hr] at h
      simp only [cleanupRun] at h
      have hhead : t.head? = some q := by
        simpa [stackTool] using hr
      obtain ⟨rest, hrest⟩ : ∃ rest, t = q :: rest := by
        cases t with
        | nil => simp at hhead
        | cons a t' =>
          have ha : a = q := by simpa using hhead
          exact ⟨t', by rw [ha]⟩
      subst hrest
      have := (List.chain'_cons'.mp ht).1
      have ht2 : t2 = rest := by simpa [stackTool] using h.symm
      subst ht2
      intro hcon
      cases t2 with
      | nil => simp at hcon
      | cons b t2' =>
        have hb : b = q := by simpa using hcon
        exact (this b (by simp)) hb.symm
    · rw [if_neg hr] at h
      have hhead : ¬ t.head? = some q := by
        simpa [stackTool] using hr
      cases flag with
      | true => simp at h
      | false =>
        obtain rfl : t = t2 := by simpa [cleanupRun] using h
        exact hhead
  | p :: r :: ps, flag, t, t2, q, ht, h, hlast => by
    have hlast' : (r :: ps).getLast? = some q := by
      simpa using hlast
    rw [cleanupRun_cons] at h
    by_cases hr : stackTool.checkRevert t p = true
    · rw [if_pos hr] at h
      exact cleanupRun_stack_last (r :: ps) true _ t2 q (List.Chain'.tail ht) h hlast'
    · rw [if_neg hr] at h
      cases flag with
      | true => simp at h
      | false => exact cleanupRun_stack_last (r :: ps) false t t2 q ht h hlast'

/-- Helper: in the stack model, a duplicate-free series whose first patch is
not on top of the tree forward-applies entirely (every dry-run check
succeeds, no patch is skipped) and pushes the series onto the tree. -/
theorem forwardRun_stack_push :
    ∀ (S t : List Nat), S.Nodup →
      (∀ q, S.head? = some q → t.head? ≠ some q) →
      forwardRun stackTool S t = some (S.reverse ++ t)
  | [], t, _, _ => by simp [forwardRun]
  | p :: ps, t, hnd, hhead => by
    have hne : t.head? ≠ some p := hhead p rfl
    have hca : stackTool.checkApply t p = true := by
      simpa [stackTool] using hne
    rw [forwardRun_cons, if_pos hca]
    have hnd' : ps.Nodup := (List.nodup_cons.mp hnd).2
    have hpnotin : p ∉ ps := (List.nodup_cons.mp hnd).1
    have hhead' : ∀ q, ps.head? = some q →
        (stackTool.runApply t p).head? ≠ some q := by
      intro q hq
      have hqin : q ∈ ps := by
        cases ps with
        | nil => simp at hq
        | cons a l => simp at hq; simp [hq]
      have : q ≠ p := fun hqp => hpnotin (hqp ▸ hqin)
      simp [stackTool]
      exact fun hpq => this hpq.symm
    rw [forwardRun_stack_push ps (stackTool.runApply t p) hnd' hhead']
    simp [stackTool]

/-- Helper: in the stack model, cleaning up the reversed series from a tree
that is exactly the reversed series pushed on a base pops the whole series
back off, for any starting flag. -/
theorem cleanupRun_stack_pop :
    ∀ (L t : List Nat) (flag : Bool),
      cleanupRun stackTool L flag (L ++ t) = some t
  | [], t, flag => by simp [cleanupRun]
  | p :: L, t, flag => by
    have hr : stackTool.checkRevert (p :: (L ++ t)) p = true := by
      simp [stackTool]
    rw [List.cons_append, cleanupRun_cons, if_pos hr]
    have : stackTool.runRevert (p :: (L ++ t)) p = L ++ t := rfl
    rw [this]
    exact cleanupRun_stack_pop L t true

/-- C5 counterexample: for the series [5, 5] (the same patch listed twice)
on the empty (pristine) tree, a single converge succeeds, but the second
converge of the composition aborts in its cleanup pass (the first revert of
patch 5 succeeds, the duplicate's revert dry-run then fails with
`expects_successful_reverts` set), so the composition's final state differs
from the single run's. -/
theorem converge_not_idempotent :
    converge stackTool [5, 5] [] = some [5]
    ∧ (converge stackTool [5, 5] []).bind (fun u => converge stackTool [5, 5] u) =
        none
    ∧ (converge stackTool [5, 5] []).bind (fun u => converge stackTool [5, 5] u) ≠
        converge stackTool [5, 5] [] := by
  refine ⟨rfl, rfl, by decide⟩

/-- C5 amended: for every duplicate-free patch series S and every working
tree on which no patch is reverse-applicable twice in immediate succession,
Converge(T,S); Converge(T,S) — with the second run short-circuited if the
first aborts — leaves the tree in the same final state as a single
Converge(T,S); in particular a second run on the already-fully-patched
result succeeds and changes nothing. -/
theorem converge_idempotent (S t : List Nat) (hS : S.Nodup)
    (ht : t.Chain' (· ≠ ·)) :
    (converge stackTool S t).bind (fun u => converge stackTool S u) =
      converge stackTool S t := by
  unfold converge
  cases hc : cleanupRun stackTool S.reverse false t with
  | none => rfl
  | some t1 =>
    have ht1 : t1.Chain' (· ≠ ·) := cleanupRun_stack_chain S.reverse false t t1 ht hc
    have hhead : ∀ q, S.head? = some q → t1.head? ≠ some q := by
      intro q hq
      exact cleanupRun_stack_last S.reverse false t t1 q ht hc
        (by rw [List.getLast?_reverse]; exact hq)
    have hfwd : forwardRun stackTool S t1 = some (S.reverse ++ t1) :=
      forwardRun_stack_push S t1 hS hhead
    calc ((some t1).bind (forwardRun stackTool S)).bind
          (fun u => (cleanupRun stackTool S.reverse false u).bind
            (forwardRun stackTool S))
        = (forwardRun stackTool S t1).bind
            (fun u => (cleanupRun stackTool S.reverse false u).bind
              (forwardRun stackTool S)) := rfl
      _ = (some (S.reverse ++ t1)).bind
            (fun u => (cleanupRun stackTool S.reverse false u).bind
              (forwardRun stackTool S)) := by rw [hfwd]
      _ = (cleanupRun stackTool S.reverse false (S.reverse ++ t1)).bind
            (forwardRun stackTool S) := rfl
      _ = (some t1).bind (forwardRun stackTool S) := by
            rw [cleanupRun_stack_pop S.reverse t1 false]

/-- C5 amended witness: the duplicate-free series [1, 2] on the pristine
(empty) tree — running converge twice equals running it once. -/
theorem converge_idempotent_witness :
    (converge stackTool [1, 2] []).bind (fun u => converge stackTool [1, 2] u) =
      converge stackTool [1, 2] [] :=
  converge_idempotent [1, 2] [] (by decide) (by decide)

end AndroidToolsStatic
